import Mathlib

/-!
Verification of the merge-bot orchestration of `oca_github_bot/tasks/merge_bot.py`.

The development shallowly embeds the module: pure code becomes Lean functions,
stateful code becomes functions from a read-only `World` (the external
collaborators: git command outcomes, hosting API answers, configuration) to a
result (`Except PyErr _`, errors modelling raised Python exceptions) paired with
a trace of externally visible effects (`List Effect`).
-/

/-! ## CI signal aggregation (`_get_commit_success`) -/

/-- A commit status entry, as returned by the status API
(`gh_status.statuses` in the source): a context string and a state string. -/
structure CommitStatus where
  context : String
  state : String
deriving DecidableEq, Repr

/-- A check-suite entry (`gh_commit.check_suites()` in the source): the owning
application's name and an optional conclusion string (`none` models a Python
`None` or empty conclusion, i.e. a falsy value). -/
structure CheckSuite where
  app_name : String
  conclusion : Option String
deriving DecidableEq, Repr

/-- The CI data of one commit: its status entries and check-suite entries, in
API order. -/
structure CommitCI where
  statuses : List CommitStatus
  check_suites : List CheckSuite
deriving DecidableEq, Repr

/-- The configuration surface read by the aggregator:
`GITHUB_STATUS_IGNORED` and `GITHUB_CHECK_SUITES_IGNORED`. -/
structure CIConfig where
  status_ignored : List String
  check_suites_ignored : List String
deriving DecidableEq, Repr

/-- `status.context in GITHUB_STATUS_IGNORED`. -/
def statusIgnoredB (cfg : CIConfig) (s : CommitStatus) : Bool :=
  cfg.status_ignored.contains s.context

/-- `status.state == "success"`. -/
def statusSuccessB (s : CommitStatus) : Bool :=
  decide (s.state = "success")

/-- `status.state == "pending"`. -/
def statusPendingB (s : CommitStatus) : Bool :=
  decide (s.state = "pending")

/-- A status state that is neither success nor pending (the `else` branch of
the status loop: error/failure). -/
def statusFailureB (s : CommitStatus) : Bool :=
  !statusSuccessB s && !statusPendingB s

/-- `status.context.startswith("continuous-integration/travis-ci")`. -/
def isTravisContext (s : CommitStatus) : Bool :=
  s.context.startsWith "continuous-integration/travis-ci"

/-- `check_suite.app.name in GITHUB_CHECK_SUITES_IGNORED`. -/
def suiteIgnoredB (cfg : CIConfig) (cs : CheckSuite) : Bool :=
  cfg.check_suites_ignored.contains cs.app_name

/-- `check_suite.conclusion == "success"`. -/
def suiteSuccessB (cs : CheckSuite) : Bool :=
  decide (cs.conclusion = some "success")

/-- `not check_suite.conclusion`: conclusion absent or empty. -/
def suiteIncompleteB (cs : CheckSuite) : Bool :=
  decide (cs.conclusion.getD "" = "")

/-- A conclusion that is present, non-empty and not success (the final `else`
branch of the check-suite loop). -/
def suiteFailureB (cs : CheckSuite) : Bool :=
  !suiteSuccessB cs && !suiteIncompleteB cs

/-- `check_suite.app.name == "Travis CI"`. -/
def isTravisApp (cs : CheckSuite) : Bool :=
  decide (cs.app_name = "Travis CI")

/-- The value of the `old_travis` flag after the status loop has run to
completion: some non-ignored successful legacy Travis status was seen. -/
def oldTravisB (cfg : CIConfig) (l : List CommitStatus) : Bool :=
  l.any fun s => !statusIgnoredB cfg s && statusSuccessB s && isTravisContext s

/-- A non-ignored successful status entry (sets `success = True`). -/
def statusSawSuccessB (cfg : CIConfig) (s : CommitStatus) : Bool :=
  !statusIgnoredB cfg s && statusSuccessB s

/-- A non-ignored successful check-suite entry (sets `success = True`). -/
def suiteSawSuccessB (cfg : CIConfig) (cs : CheckSuite) : Bool :=
  !suiteIgnoredB cfg cs && suiteSuccessB cs

/-- The first loop of `_get_commit_success`, over the commit's statuses.
`Except.error r` models the early `return r` statements; `Except.ok` carries
the `success` accumulator and the `old_travis` flag to the second loop. -/
def statusLoop (cfg : CIConfig) :
    List CommitStatus → Option Bool → Bool → Except (Option Bool) (Option Bool × Bool)
  | [], acc, ot => .ok (acc, ot)
  | s :: rest, acc, ot =>
    if statusIgnoredB cfg s then
      statusLoop cfg rest acc ot
    else if statusSuccessB s then
      statusLoop cfg rest (some true) (ot || isTravisContext s)
    else if statusPendingB s then
      .error none
    else
      .error (some false)

/-- The second loop of `_get_commit_success`, over the commit's check suites,
with the `old_travis` flag computed by the first loop. -/
def suiteLoop (cfg : CIConfig) (old_travis : Bool) :
    List CheckSuite → Option Bool → Option Bool
  | [], acc => acc
  | cs :: rest, acc =>
    if suiteIgnoredB cfg cs then
      suiteLoop cfg old_travis rest acc
    else if suiteSuccessB cs then
      suiteLoop cfg old_travis rest (some true)
    else if suiteIncompleteB cs then
      if isTravisApp cs && old_travis then
        suiteLoop cfg old_travis rest acc
      else
        none
    else
      some false

/-- `_get_commit_success`: aggregate a commit's status entries and check-suite
entries into a ternary verdict (`some true` = success, `some false` = failure,
`none` = pending / don't know). -/
def _get_commit_success (cfg : CIConfig) (ci : CommitCI) : Option Bool :=
  match statusLoop cfg ci.statuses none false with
  | .error r => r
  | .ok (acc, old_travis) => suiteLoop cfg old_travis ci.check_suites acc

/-! ## Branch-state codec and external world -/

/-- The merge intent encoded in a merge-bot branch name: PR number, target
branch, requesting username and optional bump policy. -/
structure MergeIntent where
  pr : Nat
  target_branch : String
  username : String
  bumpversion : Option String
deriving DecidableEq, Repr

/-- Modelled from the spec: `make_merge_bot_branch` / `parse_merge_bot_branch`
(module `version_branch`) are not part of the embedded source; the spec states
the encoding is a deterministic, reversible bijection whose names are
distinguishable from ordinary branches. We model the branch-name space as
ordinary names plus structured merge-bot names. -/
inductive BranchName
  | plain (name : String)
  | mergeBot (intent : MergeIntent)
deriving DecidableEq, Repr

/-- A rendering of an intent as a concrete ref string, used only inside
recorded git command lines. -/
def MergeIntent.render (i : MergeIntent) : String :=
  i.target_branch ++ "-ocabot-merge-pr-" ++ toString i.pr ++ "-by-" ++ i.username ++
    "-bump-" ++ i.bumpversion.getD "nobump"

/-- Render a branch name as the ref string appearing in git command lines. -/
def BranchName.render : BranchName → String
  | .plain n => n
  | .mergeBot i => i.render

/-- Modelled from the spec: `make_merge_bot_branch(pr, target, username,
bumpversion)` encodes the four-tuple into a branch name. -/
def make_merge_bot_branch (pr : Nat) (target username : String)
    (bump : Option String) : BranchName :=
  .mergeBot ⟨pr, target, username, bump⟩

/-- Outcome of one external git command: success, or a
`subprocess.CalledProcessError` carrying the captured combined output. -/
inductive GitRes
  | ok
  | err (output : String)
deriving DecidableEq, Repr

/-- A raised Python exception: a `CalledProcessError` (with command and
captured output) or any other exception (with its description). -/
inductive PyErr
  | calledProcess (cmd : List String) (output : String)
  | other (desc : String)
deriving DecidableEq, Repr

/-- Modelled from the spec: `parse_merge_bot_branch` decodes a branch name back
into the intent; decoding an out-of-protocol name is an error, not a panic. -/
def parse_merge_bot_branch : BranchName → Except PyErr MergeIntent
  | .plain _ => .error (.other "not a merge bot branch")
  | .mergeBot i => .ok i

/-- Structural substring test over the character lists, modelling Python's
`pat in s`. -/
def hasInfix (pat : List Char) : List Char → Bool
  | [] => pat.isEmpty
  | c :: rest => pat.isPrefixOf (c :: rest) || hasInfix pat rest

/-- `pat in s` on strings. -/
def strContains (s pat : String) : Bool :=
  hasInfix pat.toList s.toList

/-- A user-facing PR comment, kept structured: each constructor carries exactly
the data interpolated into the source's message string. -/
inductive CommentBody
  | noPermission (username : String)
  | intro (message : String) (branch : BranchName)
  | startFailedCommand (username : String) (cmd : List String) (output : String)
  | startFailedOther (username : String) (desc : String)
  | merged (sha : String) (org : String) (target_branch : String)
  | finalizeFailedCommand (username : String) (cmd : List String) (output : String)
  | finalizeFailedOther (username : String) (desc : String)
  | failedChecks (username : String) (branch : BranchName) (sha : String)
deriving DecidableEq, Repr

/-- One externally visible effect of an invocation, in order of occurrence. -/
inductive Effect
  | gitFetchPr (pr : Nat) (dest : BranchName)
  | gitCheckout (branch : BranchName)
  | gitRebase (onto : String)
  | gitDeletePush (branch : BranchName)
  | gitPush (branch : BranchName)
  | gitPushTarget (target_branch : String)
  | gitMergeNoFF (pr : Nat) (target_branch username : String) (branch : BranchName)
  | computeModifiedAddons (checked_out : BranchName) (target_branch : String)
  | mainBranchActions (org repo target_branch : String)
  | bumpManifestVersion (addon_dir bump : String)
  | buildWheel (addon_dir : String)
  | publishWheel (addon_dir : String) (dry_run : Bool)
  | postComment (pr : Nat) (body : CommentBody)
  | addLabel (pr : Nat) (label : String)
  | closePullRequest (pr : Nat)
  | restartStart (org repo : String) (pr : Nat) (username : String)
      (bumpversion : Option String) (dry_run : Bool)
deriving DecidableEq, Repr

/-- The read-only external world an invocation runs against: permission
answers, PR base branches, outcomes of each git command, CI data per sha,
head shas, and the random index used to pick an intro message. -/
structure World where
  can_push : String → Bool
  pr_base : Nat → String
  fetch_pr_res : Nat → BranchName → GitRes
  checkout_res : BranchName → GitRes
  rebase_res : String → GitRes
  delete_push_res : BranchName → GitRes
  push_res : BranchName → GitRes
  intro_comment_exc : Option String
  rand_index : Nat
  is_ancestor : String → BranchName → Bool
  modified_addon_dirs : BranchName → String → List String
  merge_res : GitRes
  push_target_res : String → GitRes
  head_sha : String
  clone_head_sha : BranchName → String
  commit_ci : String → CommitCI

/-- The configuration surface of the merge bot: the CI ignore lists,
`MERGE_BOT_INTRO_MESSAGES` and `SIMPLE_INDEX_ROOT`. -/
structure MergeBotConfig where
  ci : CIConfig
  intro_messages : List String
  simple_index_root : Option String
deriving Repr

/-- `LABEL_MERGED`. -/
def LABEL_MERGED : String := "merged 🎉"

/-- Command line of `git fetch origin pull/N/head:dest`. -/
def fetchPrCmd (pr : Nat) (dest : BranchName) : List String :=
  ["git", "fetch", "origin", "pull/" ++ toString pr ++ "/head:" ++ dest.render]

/-- Command line of `git fetch origin refs/pull/N/head:tmp-pr-N`. -/
def fetchTmpPrCmd (pr : Nat) : List String :=
  ["git", "fetch", "origin",
    "refs/pull/" ++ toString pr ++ "/head:tmp-pr-" ++ toString pr]

/-- Command line of `git checkout b`. -/
def checkoutCmd (b : BranchName) : List String :=
  ["git", "checkout", b.render]

/-- Command line of `git rebase --autosquash target`. -/
def rebaseCmd (target : String) : List String :=
  ["git", "rebase", "--autosquash", target]

/-- Command line of the deletion push `git push remote :b`. -/
def deleteCmd (b : BranchName) : List String :=
  ["git", "push", "origin", ":" ++ b.render]

/-- Command line of `git push origin b`. -/
def pushCmd (b : BranchName) : List String :=
  ["git", "push", "origin", b.render]

/-- Command line of `git push origin target`. -/
def pushTargetCmd (target : String) : List String :=
  ["git", "push", "origin", target]

/-- The merge commit message recording PR number, target branch and a
sign-off naming the requesting user. -/
def mergeMsg (i : MergeIntent) : String :=
  "Merge PR #" ++ toString i.pr ++ " into " ++ i.target_branch ++
    "\n\nSigned-off-by " ++ i.username

/-- Command line of the no-fast-forward merge of the bot branch. -/
def mergeCmd (i : MergeIntent) : List String :=
  ["git", "merge", "--no-ff", "--m", mergeMsg i, (BranchName.mergeBot i).render]

/-! ## The orchestrators -/

/-- `_git_delete_branch(remote, branch)`: push a deletion of the remote
branch; a `CalledProcessError` whose output contains `unable to delete`
(branch absent on the remote) is swallowed, any other failure is re-raised. -/
def _git_delete_branch (w : World) (b : BranchName) : Except PyErr Unit × List Effect :=
  match w.delete_push_res b with
  | .ok => (.ok (), [.gitDeletePush b])
  | .err out =>
    if strContains out "unable to delete" then
      (.ok (), [.gitDeletePush b])
    else
      (.error (.calledProcess (deleteCmd b) out), [.gitDeletePush b])

/-- `_get_merge_bot_intro_message()`: pick one of the configured intro
messages at the world's random index. -/
def _get_merge_bot_intro_message (cfg : MergeBotConfig) (w : World) : String :=
  cfg.intro_messages.getD (w.rand_index % cfg.intro_messages.length) ""

/-- The `try:` block of `merge_bot_start`: fetch the PR head into the
merge-bot branch, check it out, rebase with autosquash onto the target,
force-replace the remote branch (idempotent delete then push), and post the
intro comment (posting may raise an unexpected exception, modelled by
`World.intro_comment_exc`). -/
def startBody (cfg : MergeBotConfig) (w : World) (pr : Nat) (username : String)
    (bumpversion : Option String) (intro_message : Option String)
    (target : String) : Except PyErr Unit × List Effect :=
  let b := make_merge_bot_branch pr target username bumpversion
  match w.fetch_pr_res pr b with
  | .err out => (.error (.calledProcess (fetchPrCmd pr b) out), [.gitFetchPr pr b])
  | .ok =>
    match w.checkout_res b with
    | .err out =>
      (.error (.calledProcess (checkoutCmd b) out), [.gitFetchPr pr b, .gitCheckout b])
    | .ok =>
      match w.rebase_res target with
      | .err out =>
        (.error (.calledProcess (rebaseCmd target) out),
          [.gitFetchPr pr b, .gitCheckout b, .gitRebase target])
      | .ok =>
        match _git_delete_branch w b with
        | (.error e, tr) =>
          (.error e, [.gitFetchPr pr b, .gitCheckout b, .gitRebase target] ++ tr)
        | (.ok _, tr) =>
          match w.push_res b with
          | .err out =>
            (.error (.calledProcess (pushCmd b) out),
              [.gitFetchPr pr b, .gitCheckout b, .gitRebase target] ++ tr ++ [.gitPush b])
          | .ok =>
            let msg := match intro_message with
              | some m => m
              | none => _get_merge_bot_intro_message cfg w
            match w.intro_comment_exc with
            | some d =>
              (.error (.other d),
                [.gitFetchPr pr b, .gitCheckout b, .gitRebase target] ++ tr ++ [.gitPush b])
            | none =>
              (.ok (),
                [.gitFetchPr pr b, .gitCheckout b, .gitRebase target] ++ tr ++
                  [.gitPush b, .postComment pr (.intro msg b)])

/-- `merge_bot_start`: the Start entry point. A failed permission check posts
a comment and returns normally; failures inside the work block are reported as
a PR comment (command and output for command failures, description otherwise)
and re-raised. -/
def merge_bot_start (cfg : MergeBotConfig) (w : World) (org repo : String)
    (pr : Nat) (username : String) (bumpversion : Option String)
    (dry_run : Bool) (intro_message : Option String) :
    Except PyErr Unit × List Effect :=
  if w.can_push username then
    let target := w.pr_base pr
    match startBody cfg w pr username bumpversion intro_message target with
    | (.ok _, tr) => (.ok (), tr)
    | (.error (.calledProcess cmd out), tr) =>
      (.error (.calledProcess cmd out),
        tr ++ [.postComment pr (.startFailedCommand username cmd out)])
    | (.error (.other d), tr) =>
      (.error (.other d), tr ++ [.postComment pr (.startFailedOther username d)])
  else
    (.ok (), [.postComment pr (.noPermission username)])

/-- The tail of the merge sequence shared by the dry-run and real push paths:
optional wheel publication, idempotent deletion of the remote bot branch,
success comment, label (skipped in dry-run) and PR closure. -/
def mergeTail (cfg : MergeBotConfig) (w : World) (org : String)
    (i : MergeIntent) (dry_run : Bool) (dirs : List String)
    (t : List Effect) : Except PyErr Bool × List Effect :=
  let t5 := t ++
    (if i.bumpversion.isSome && !dirs.isEmpty && cfg.simple_index_root.isSome then
      dirs.map fun d => Effect.publishWheel d dry_run
    else [])
  match _git_delete_branch w (BranchName.mergeBot i) with
  | (.error e, tr) => (.error e, t5 ++ tr)
  | (.ok _, tr) =>
    (.ok true,
      t5 ++ tr ++ [.postComment i.pr (.merged w.head_sha org i.target_branch)] ++
        (if dry_run then [] else [Effect.addLabel i.pr LABEL_MERGED]) ++
        [Effect.closePullRequest i.pr])

/-- The body of `_merge_bot_merge_pr` once the intent is decoded: race check
(restart Start on a moved target), fetch of the PR head into a temporary ref,
computation of the modified addon dirs against the target, main-branch
actions and version bumps when addons changed, the no-fast-forward merge
commit, push of the target (or dry-run log), and the shared tail. -/
def mergePrBody (cfg : MergeBotConfig) (w : World) (org repo : String)
    (i : MergeIntent) (dry_run : Bool) : Except PyErr Bool × List Effect :=
  let target := i.target_branch
  let bb := BranchName.mergeBot i
  match w.checkout_res (.plain target) with
  | .err out =>
    (.error (.calledProcess (checkoutCmd (.plain target)) out),
      [.gitCheckout (.plain target)])
  | .ok =>
    if !(w.is_ancestor target bb) then
      let msg := "It looks like something changed on `" ++ target ++
        "` in the meantime.\nLet me try again (no action is required from you)."
      let s := merge_bot_start cfg w org repo i.pr i.username i.bumpversion
        dry_run (some msg)
      (s.1.map fun _ => false,
        [.gitCheckout (.plain target),
          .restartStart org repo i.pr i.username i.bumpversion dry_run] ++ s.2)
    else
      let tmp := BranchName.plain ("tmp-pr-" ++ toString i.pr)
      let t0 := [Effect.gitCheckout (.plain target)]
      match w.fetch_pr_res i.pr tmp with
      | .err out =>
        (.error (.calledProcess (fetchTmpPrCmd i.pr) out), t0 ++ [.gitFetchPr i.pr tmp])
      | .ok =>
        match w.checkout_res tmp with
        | .err out =>
          (.error (.calledProcess (checkoutCmd tmp) out),
            t0 ++ [.gitFetchPr i.pr tmp, .gitCheckout tmp])
        | .ok =>
          let dirs := w.modified_addon_dirs tmp target
          let t1 := t0 ++ [Effect.gitFetchPr i.pr tmp, Effect.gitCheckout tmp,
            Effect.computeModifiedAddons tmp target]
          match w.checkout_res bb with
          | .err out =>
            (.error (.calledProcess (checkoutCmd bb) out), t1 ++ [.gitCheckout bb])
          | .ok =>
            let t2 := t1 ++ [Effect.gitCheckout bb] ++
              (if dirs.isEmpty then [] else [Effect.mainBranchActions org repo target]) ++
              (dirs.flatMap fun d =>
                match i.bumpversion with
                | some bv => [Effect.bumpManifestVersion d bv, Effect.buildWheel d]
                | none => [])
            match w.checkout_res (.plain target) with
            | .err out =>
              (.error (.calledProcess (checkoutCmd (.plain target)) out),
                t2 ++ [.gitCheckout (.plain target)])
            | .ok =>
              match w.merge_res with
              | .err out =>
                (.error (.calledProcess (mergeCmd i) out),
                  t2 ++ [.gitCheckout (.plain target),
                    .gitMergeNoFF i.pr target i.username bb])
              | .ok =>
                let t3 := t2 ++ [Effect.gitCheckout (.plain target),
                  Effect.gitMergeNoFF i.pr target i.username bb]
                if dry_run then
                  mergeTail cfg w org i dry_run dirs t3
                else
                  match w.push_target_res target with
                  | .err out =>
                    (.error (.calledProcess (pushTargetCmd target) out),
                      t3 ++ [.gitPushTarget target])
                  | .ok =>
                    mergeTail cfg w org i dry_run dirs (t3 ++ [.gitPushTarget target])

/-- `_merge_bot_merge_pr(org, repo, merge_bot_branch, dry_run=False)`:
decode the intent from the branch name, then run the merge sequence. -/
def _merge_bot_merge_pr (cfg : MergeBotConfig) (w : World) (org repo : String)
    (b : BranchName) (dry_run : Bool) : Except PyErr Bool × List Effect :=
  match parse_merge_bot_branch b with
  | .error e => (.error e, [])
  | .ok i => mergePrBody cfg w org repo i dry_run

/-- `merge_bot_status(org, repo, merge_bot_branch, sha)`: the Status entry
point. A stale sha is discarded silently; a pending verdict is a no-op; a
success verdict runs the finalization (reporting and re-raising its
failures); a failure verdict posts a comment and deletes the bot branch with
a raw deletion push. -/
def merge_bot_status (cfg : MergeBotConfig) (w : World) (org repo : String)
    (b : BranchName) (sha : String) : Except PyErr Unit × List Effect :=
  if w.clone_head_sha b = sha then
    match parse_merge_bot_branch b with
    | .error e => (.error e, [])
    | .ok i =>
      match _get_commit_success cfg.ci (w.commit_ci sha) with
      | none => (.ok (), [])
      | some true =>
        match _merge_bot_merge_pr cfg w org repo b false with
        | (.ok _, tr) => (.ok (), tr)
        | (.error (.calledProcess cmd out), tr) =>
          (.error (.calledProcess cmd out),
            tr ++ [.postComment i.pr (.finalizeFailedCommand i.username cmd out)])
        | (.error (.other d), tr) =>
          (.error (.other d),
            tr ++ [.postComment i.pr (.finalizeFailedOther i.username d)])
      | some false =>
        let t0 := [Effect.postComment i.pr (.failedChecks i.username b sha)]
        match w.delete_push_res b with
        | .ok => (.ok (), t0 ++ [.gitDeletePush b])
        | .err out =>
          (.error (.calledProcess (deleteCmd b) out), t0 ++ [.gitDeletePush b])
  else
    (.ok (), [])

/-! ## Trace predicates and environment bundles -/

/-- The marker of an invocation of `merge_bot_start` from the race branch. -/
def isRestartEffect : Effect → Bool
  | .restartStart _ _ _ _ _ _ => true
  | _ => false

/-- A `git merge --no-ff` merge commit. -/
def isMergeCommitEffect : Effect → Bool
  | .gitMergeNoFF _ _ _ _ => true
  | _ => false

/-- A push of the target branch. -/
def isPushTargetEffect : Effect → Bool
  | .gitPushTarget _ => true
  | _ => false

/-- A main-branch maintenance action, version bump, wheel build or wheel
publication. -/
def isMaintenanceEffect : Effect → Bool
  | .mainBranchActions _ _ _ => true
  | .bumpManifestVersion _ _ => true
  | .buildWheel _ => true
  | .publishWheel _ _ => true
  | _ => false

/-- An invocation of `git_modified_addon_dirs`. -/
def isComputeAddonsEffect : Effect → Bool
  | .computeModifiedAddons _ _ => true
  | _ => false

/-- An addition of a label to the PR. -/
def isAddLabelEffect : Effect → Bool
  | .addLabel _ _ => true
  | _ => false

/-- A wheel publication performed for real (not simulated by the dry-run
flag passed to `build_and_publish_wheel`). -/
def isRealPublishEffect : Effect → Bool
  | .publishWheel _ dr => !dr
  | _ => false

/-- All external calls made by the `merge_bot_start` work block succeed for
this intent. -/
def startEnvOk (w : World) (pr : Nat) (target username : String)
    (bump : Option String) : Prop :=
  w.can_push username = true ∧
  w.fetch_pr_res pr (make_merge_bot_branch pr target username bump) = .ok ∧
  w.checkout_res (make_merge_bot_branch pr target username bump) = .ok ∧
  w.rebase_res target = .ok ∧
  (_git_delete_branch w (make_merge_bot_branch pr target username bump)).1 = .ok () ∧
  w.push_res (make_merge_bot_branch pr target username bump) = .ok ∧
  w.intro_comment_exc = none

/-- All git commands of the no-race merge sequence succeed for this intent
(the final deletion push may also fail with a swallowed branch-absent
error). -/
def mergeEnvOk (w : World) (i : MergeIntent) : Prop :=
  w.checkout_res (.plain i.target_branch) = .ok ∧
  w.fetch_pr_res i.pr (.plain ("tmp-pr-" ++ toString i.pr)) = .ok ∧
  w.checkout_res (.plain ("tmp-pr-" ++ toString i.pr)) = .ok ∧
  w.checkout_res (.mergeBot i) = .ok ∧
  w.merge_res = .ok ∧
  w.push_target_res i.target_branch = .ok ∧
  (_git_delete_branch w (.mergeBot i)).1 = .ok ()

/-- Some external call of the `merge_bot_start` work block fails for this
intent: a git command failure or the unexpected exception while posting the
intro comment. -/
def startFailureOccurs (w : World) (pr : Nat) (username : String)
    (bump : Option String) : Prop :=
  w.fetch_pr_res pr (make_merge_bot_branch pr (w.pr_base pr) username bump) ≠ .ok ∨
  w.checkout_res (make_merge_bot_branch pr (w.pr_base pr) username bump) ≠ .ok ∨
  w.rebase_res (w.pr_base pr) ≠ .ok ∨
  (_git_delete_branch w (make_merge_bot_branch pr (w.pr_base pr) username bump)).1
    ≠ .ok () ∨
  w.push_res (make_merge_bot_branch pr (w.pr_base pr) username bump) ≠ .ok ∨
  w.intro_comment_exc ≠ none

/-- A benign world in which every permission check passes, every git command
succeeds, no addon is modified, and the example sha matches. Used to
instantiate theorems with hypotheses at concrete inputs. -/
def exampleWorld : World where
  can_push := fun _ => true
  pr_base := fun _ => "15.0"
  fetch_pr_res := fun _ _ => .ok
  checkout_res := fun _ => .ok
  rebase_res := fun _ => .ok
  delete_push_res := fun _ => .ok
  push_res := fun _ => .ok
  intro_comment_exc := none
  rand_index := 0
  is_ancestor := fun _ _ => true
  modified_addon_dirs := fun _ _ => []
  merge_res := .ok
  push_target_res := fun _ => .ok
  head_sha := "cafebabe"
  clone_head_sha := fun _ => "deadbeef"
  commit_ci := fun _ => ⟨[⟨"ci/runbot", "success"⟩], []⟩

/-- An example merge intent: PR 42 onto `15.0` for user `alice`, bump
policy `patch`. -/
def exampleIntent : MergeIntent :=
  ⟨42, "15.0", "alice", some "patch"⟩

/-- An example configuration with empty ignore lists, one intro message and a
configured publish index. -/
def exampleConfig : MergeBotConfig :=
  ⟨⟨[], []⟩, ["On my way to merge this fine PR!"], some "/simple-index"⟩

/-- A world in which the target branch moved under the bot branch (the
ancestor check fails), everything else succeeding. -/
def raceWorld : World :=
  { exampleWorld with is_ancestor := fun _ _ => false }

/-- A world in which the event sha matches the clone's head and the commit's
CI reports success, so Status proceeds to finalization. -/
def successWorld : World :=
  { exampleWorld with clone_head_sha := fun _ => "cafebabe" }

/-- A world in which the event sha matches, the commit's CI reports failure,
and the remote bot branch is already absent so its deletion push fails with
git's branch-does-not-exist message. -/
def delFailWorld : World :=
  { exampleWorld with
    clone_head_sha := fun _ => "cafebabe"
    commit_ci := fun _ => ⟨[⟨"ci/runbot", "failure"⟩], []⟩
    delete_push_res := fun _ =>
      .err "error: unable to delete 'branch': remote ref does not exist" }

/-- A world in which the requesting user has no push permission. -/
def noPermWorld : World :=
  { exampleWorld with can_push := fun _ => false }

/-- A world in which fetching the PR head fails. -/
def fetchFailWorld : World :=
  { exampleWorld with
    fetch_pr_res := fun _ _ => GitRes.err "fatal: could not find remote ref" }

/-! ## Lemmas on the aggregator loops -/

/-- If no non-ignored status entry is a failure and some non-ignored status
entry is pending, the status loop short-circuits to Pending. -/
theorem statusLoop_pending (cfg : CIConfig) (l : List CommitStatus)
    (acc : Option Bool) (ot : Bool)
    (h1 : ∀ s ∈ l, statusIgnoredB cfg s = false → statusFailureB s = false)
    (h2 : ∃ s ∈ l, statusIgnoredB cfg s = false ∧ statusPendingB s = true) :
    statusLoop cfg l acc ot = .error none := by
  induction l generalizing acc ot with
  | nil => simp at h2
  | cons s rest ih =>
    rcases h2 with ⟨t, ht, htig, htp⟩
    rw [List.mem_cons] at ht
    cases hig : statusIgnoredB cfg s with
    | true =>
      rw [show statusLoop cfg (s :: rest) acc ot = statusLoop cfg rest acc ot by
        simp [statusLoop, hig]]
      refine ih _ _ (fun u hu => h1 u (List.mem_cons_of_mem _ hu)) ?_
      rcases ht with rfl | hmem
      · rw [hig] at htig; cases htig
      · exact ⟨t, hmem, htig, htp⟩
    | false =>
      cases hsucc : statusSuccessB s with
      | true =>
        rw [show statusLoop cfg (s :: rest) acc ot
            = statusLoop cfg rest (some true) (ot || isTravisContext s) by
          simp [statusLoop, hig, hsucc]]
        refine ih _ _ (fun u hu => h1 u (List.mem_cons_of_mem _ hu)) ?_
        rcases ht with rfl | hmem
        · exfalso
          have hs : t.state = "success" := by
            simpa [statusSuccessB] using hsucc
          have hp : t.state = "pending" := by
            simpa [statusPendingB] using htp
          rw [hs] at hp
          exact absurd hp (by decide)
        · exact ⟨t, hmem, htig, htp⟩
      | false =>
        cases hpend : statusPendingB s with
        | true => simp [statusLoop, hig, hsucc, hpend]
        | false =>
          exfalso
          have hf := h1 s (List.mem_cons_self s rest) hig
          rw [statusFailureB, hsucc, hpend] at hf
          cases hf

/-- If every non-ignored status entry is successful, the status loop completes;
the accumulator becomes `some true` exactly when a non-ignored success was
seen, and `old_travis` accumulates the non-ignored legacy Travis successes. -/
theorem statusLoop_complete (cfg : CIConfig) (l : List CommitStatus)
    (acc : Option Bool) (ot : Bool)
    (h1 : ∀ s ∈ l, statusIgnoredB cfg s = false → statusSuccessB s = true) :
    statusLoop cfg l acc ot =
      .ok ((if l.any (statusSawSuccessB cfg) then some true else acc),
        ot || l.any fun s => statusSawSuccessB cfg s && isTravisContext s) := by
  induction l generalizing acc ot with
  | nil => simp [statusLoop]
  | cons s rest ih =>
    cases hig : statusIgnoredB cfg s with
    | true =>
      have hsaw : statusSawSuccessB cfg s = false := by
        simp [statusSawSuccessB, hig]
      simp only [statusLoop, hig, if_true]
      rw [ih _ _ (fun u hu => h1 u (List.mem_cons_of_mem _ hu))]
      simp [hsaw]
    | false =>
      have hsucc := h1 s (List.mem_cons_self s rest) hig
      have hsaw : statusSawSuccessB cfg s = true := by
        simp [statusSawSuccessB, hig, hsucc]
      simp only [statusLoop, hig, hsucc, if_true, if_false, Bool.false_eq_true]
      rw [ih _ _ (fun u hu => h1 u (List.mem_cons_of_mem _ hu))]
      simp [hsaw, Bool.or_assoc]

/-- If no non-ignored status entry is pending and some non-ignored status
entry is a failure, the status loop short-circuits to Failure. -/
theorem statusLoop_failure (cfg : CIConfig) (l : List CommitStatus)
    (acc : Option Bool) (ot : Bool)
    (h1 : ∀ s ∈ l, statusIgnoredB cfg s = false → statusPendingB s = false)
    (h2 : ∃ s ∈ l, statusIgnoredB cfg s = false ∧ statusFailureB s = true) :
    statusLoop cfg l acc ot = .error (some false) := by
  induction l generalizing acc ot with
  | nil => simp at h2
  | cons s rest ih =>
    rcases h2 with ⟨t, ht, htig, htf⟩
    rw [List.mem_cons] at ht
    cases hig : statusIgnoredB cfg s with
    | true =>
      rw [show statusLoop cfg (s :: rest) acc ot = statusLoop cfg rest acc ot by
        simp [statusLoop, hig]]
      refine ih _ _ (fun u hu => h1 u (List.mem_cons_of_mem _ hu)) ?_
      rcases ht with rfl | hmem
      · rw [hig] at htig; cases htig
      · exact ⟨t, hmem, htig, htf⟩
    | false =>
      cases hsucc : statusSuccessB s with
      | true =>
        rw [show statusLoop cfg (s :: rest) acc ot
            = statusLoop cfg rest (some true) (ot || isTravisContext s) by
          simp [statusLoop, hig, hsucc]]
        refine ih _ _ (fun u hu => h1 u (List.mem_cons_of_mem _ hu)) ?_
        rcases ht with rfl | hmem
        · exfalso
          rw [statusFailureB, hsucc] at htf
          cases htf
        · exact ⟨t, hmem, htig, htf⟩
      | false =>
        have hpend := h1 s (List.mem_cons_self s rest) hig
        simp [statusLoop, hig, hsucc, hpend]

/-- If no non-ignored check suite is a failure and some non-ignored check
suite is incomplete without being covered by the legacy Travis exception, the
check-suite loop returns Pending. -/
theorem suiteLoop_pending (cfg : CIConfig) (ot : Bool) (l : List CheckSuite)
    (acc : Option Bool)
    (h1 : ∀ cs ∈ l, suiteIgnoredB cfg cs = false → suiteFailureB cs = false)
    (h2 : ∃ cs ∈ l, suiteIgnoredB cfg cs = false ∧ suiteIncompleteB cs = true ∧
      (isTravisApp cs && ot) = false) :
    suiteLoop cfg ot l acc = none := by
  induction l generalizing acc with
  | nil => simp at h2
  | cons cs rest ih =>
    rcases h2 with ⟨t, ht, htig, hti, hte⟩
    rw [List.mem_cons] at ht
    cases hig : suiteIgnoredB cfg cs with
    | true =>
      rw [show suiteLoop cfg ot (cs :: rest) acc = suiteLoop cfg ot rest acc by
        simp [suiteLoop, hig]]
      refine ih _ (fun u hu => h1 u (List.mem_cons_of_mem _ hu)) ?_
      rcases ht with rfl | hmem
      · rw [hig] at htig; cases htig
      · exact ⟨t, hmem, htig, hti, hte⟩
    | false =>
      cases hsucc : suiteSuccessB cs with
      | true =>
        rw [show suiteLoop cfg ot (cs :: rest) acc
            = suiteLoop cfg ot rest (some true) by
          simp [suiteLoop, hig, hsucc]]
        refine ih _ (fun u hu => h1 u (List.mem_cons_of_mem _ hu)) ?_
        rcases ht with rfl | hmem
        · exfalso
          have hc : t.conclusion = some "success" := by
            simpa [suiteSuccessB] using hsucc
          rw [suiteIncompleteB, hc] at hti
          exact absurd (of_decide_eq_true hti) (by decide)
        · exact ⟨t, hmem, htig, hti, hte⟩
      | false =>
        cases hinc : suiteIncompleteB cs with
        | true =>
          cases hex : isTravisApp cs && ot with
          | true =>
            rw [show suiteLoop cfg ot (cs :: rest) acc = suiteLoop cfg ot rest acc by
              simp [suiteLoop, hig, hsucc, hinc, hex]]
            refine ih _ (fun u hu => h1 u (List.mem_cons_of_mem _ hu)) ?_
            rcases ht with rfl | hmem
            · rw [hex] at hte; cases hte
            · exact ⟨t, hmem, htig, hti, hte⟩
          | false => simp [suiteLoop, hig, hsucc, hinc, hex]
        | false =>
          exfalso
          have hf := h1 cs (List.mem_cons_self cs rest) hig
          rw [suiteFailureB, hsucc, hinc] at hf
          cases hf

/-- If every non-ignored check suite is successful or incomplete-but-exempt,
the check-suite loop completes; the accumulator becomes `some true` exactly
when a non-ignored suite success was seen. -/
theorem suiteLoop_complete (cfg : CIConfig) (ot : Bool) (l : List CheckSuite)
    (acc : Option Bool)
    (h1 : ∀ cs ∈ l, suiteIgnoredB cfg cs = false →
      suiteSuccessB cs = true ∨
        (suiteIncompleteB cs = true ∧ (isTravisApp cs && ot) = true)) :
    suiteLoop cfg ot l acc =
      (if l.any (suiteSawSuccessB cfg) then some true else acc) := by
  induction l generalizing acc with
  | nil => simp [suiteLoop]
  | cons cs rest ih =>
    cases hig : suiteIgnoredB cfg cs with
    | true =>
      have hsaw : suiteSawSuccessB cfg cs = false := by
        simp [suiteSawSuccessB, hig]
      simp only [suiteLoop, hig, if_true]
      rw [ih _ (fun u hu => h1 u (List.mem_cons_of_mem _ hu))]
      simp [hsaw]
    | false =>
      cases hsucc : suiteSuccessB cs with
      | true =>
        have hsaw : suiteSawSuccessB cfg cs = true := by
          simp [suiteSawSuccessB, hig, hsucc]
        simp only [suiteLoop, hig, hsucc, if_true, if_false, Bool.false_eq_true]
        rw [ih _ (fun u hu => h1 u (List.mem_cons_of_mem _ hu))]
        simp [hsaw]
      | false =>
        have hsaw : suiteSawSuccessB cfg cs = false := by
          simp [suiteSawSuccessB, hig, hsucc]
        rcases h1 cs (List.mem_cons_self cs rest) hig with hs | ⟨hinc, hex⟩
        · rw [hsucc] at hs; cases hs
        · simp only [suiteLoop, hig, hsucc, hinc, hex, if_true, if_false,
            Bool.false_eq_true]
          rw [ih _ (fun u hu => h1 u (List.mem_cons_of_mem _ hu))]
          simp [hsaw]

/-- If every non-ignored incomplete check suite is covered by the legacy
Travis exception and some non-ignored check suite is a failure, the
check-suite loop returns Failure. -/
theorem suiteLoop_failure (cfg : CIConfig) (ot : Bool) (l : List CheckSuite)
    (acc : Option Bool)
    (h1 : ∀ cs ∈ l, suiteIgnoredB cfg cs = false → suiteIncompleteB cs = true →
      (isTravisApp cs && ot) = true)
    (h2 : ∃ cs ∈ l, suiteIgnoredB cfg cs = false ∧ suiteFailureB cs = true) :
    suiteLoop cfg ot l acc = some false := by
  induction l generalizing acc with
  | nil => simp at h2
  | cons cs rest ih =>
    rcases h2 with ⟨t, ht, htig, htf⟩
    rw [List.mem_cons] at ht
    cases hig : suiteIgnoredB cfg cs with
    | true =>
      rw [show suiteLoop cfg ot (cs :: rest) acc = suiteLoop cfg ot rest acc by
        simp [suiteLoop, hig]]
      refine ih _ (fun u hu => h1 u (List.mem_cons_of_mem _ hu)) ?_
      rcases ht with rfl | hmem
      · rw [hig] at htig; cases htig
      · exact ⟨t, hmem, htig, htf⟩
    | false =>
      cases hsucc : suiteSuccessB cs with
      | true =>
        rw [show suiteLoop cfg ot (cs :: rest) acc
            = suiteLoop cfg ot rest (some true) by
          simp [suiteLoop, hig, hsucc]]
        refine ih _ (fun u hu => h1 u (List.mem_cons_of_mem _ hu)) ?_
        rcases ht with rfl | hmem
        · exfalso
          rw [suiteFailureB, hsucc] at htf
          cases htf
        · exact ⟨t, hmem, htig, htf⟩
      | false =>
        cases hinc : suiteIncompleteB cs with
        | true =>
          have hex := h1 cs (List.mem_cons_self cs rest) hig hinc
          rw [show suiteLoop cfg ot (cs :: rest) acc = suiteLoop cfg ot rest acc by
            simp [suiteLoop, hig, hsucc, hinc, hex]]
          refine ih _ (fun u hu => h1 u (List.mem_cons_of_mem _ hu)) ?_
          rcases ht with rfl | hmem
          · exfalso
            rw [suiteFailureB, hsucc, hinc] at htf
            cases htf
          · exact ⟨t, hmem, htig, htf⟩
        | false => simp [suiteLoop, hig, hsucc, hinc]

/-! ## Claims on the aggregator -/

/-- C2, counterexample: an input whose second status is a non-ignored pending
entry (and with no check suites, so the legacy Travis exception cannot apply)
for which the overall verdict is Failure, not Pending — the failing first
status short-circuits before the pending entry is reached. -/
theorem C2_counterexample :
    (∃ s ∈ ([⟨"ci/a", "error"⟩, ⟨"ci/b", "pending"⟩] : List CommitStatus),
        statusIgnoredB ⟨[], []⟩ s = false ∧ statusPendingB s = true) ∧
    ([] : List CheckSuite) = [] ∧
    _get_commit_success ⟨[], []⟩
      ⟨[⟨"ci/a", "error"⟩, ⟨"ci/b", "pending"⟩], []⟩ = some false := by
  decide

/-- C2 (amended): for every input containing at least one non-ignored entry in
a Pending/incomplete state and **no non-ignored failure entry**, the overall
verdict is Pending (`none`), even if other entries are Success — except when
the incomplete entry is a `Travis CI` check suite and a non-ignored legacy
`continuous-integration/travis-ci` status already reported success, in which
case that entry is skipped. -/
theorem C2_pending_dominates (cfg : CIConfig) (ci : CommitCI)
    (hs : ∀ s ∈ ci.statuses, statusIgnoredB cfg s = false → statusFailureB s = false)
    (hc : ∀ cs ∈ ci.check_suites, suiteIgnoredB cfg cs = false → suiteFailureB cs = false)
    (hp : (∃ s ∈ ci.statuses, statusIgnoredB cfg s = false ∧ statusPendingB s = true) ∨
      (∃ cs ∈ ci.check_suites, suiteIgnoredB cfg cs = false ∧ suiteIncompleteB cs = true ∧
        (isTravisApp cs && oldTravisB cfg ci.statuses) = false)) :
    _get_commit_success cfg ci = none := by
  by_cases hpend : ∃ s ∈ ci.statuses, statusIgnoredB cfg s = false ∧ statusPendingB s = true
  · unfold _get_commit_success
    rw [statusLoop_pending cfg ci.statuses none false hs hpend]
  · rcases hp with hp | hp
    · exact absurd hp hpend
    · have hall : ∀ s ∈ ci.statuses, statusIgnoredB cfg s = false →
          statusSuccessB s = true := by
        intro s hsm hsig
        have h1 := hs s hsm hsig
        have h2 : statusPendingB s = false := by
          by_contra h
          exact hpend ⟨s, hsm, hsig, by simpa using h⟩
        rw [statusFailureB, h2] at h1
        simpa using h1
      unfold _get_commit_success
      rw [statusLoop_complete cfg ci.statuses none false hall]
      exact suiteLoop_pending cfg _ ci.check_suites _ hc hp

/-- C2, witness for the amended claim: one successful status plus one
incomplete non-Travis check suite yields Pending. -/
theorem C2_witness :
    _get_commit_success ⟨[], []⟩
      ⟨[⟨"ci/a", "success"⟩], [⟨"Some App", none⟩]⟩ = none :=
  C2_pending_dominates ⟨[], []⟩ ⟨[⟨"ci/a", "success"⟩], [⟨"Some App", none⟩]⟩
    (by decide) (by decide) (by decide)

/-- C3, counterexample: an input whose second status is a non-ignored failure
entry for which the overall verdict is Pending, not Failure — the pending
first status short-circuits before the failure entry is reached, so the
verdict is not independent of the other entries' states. -/
theorem C3_counterexample :
    (∃ s ∈ ([⟨"ci/a", "pending"⟩, ⟨"ci/b", "failure"⟩] : List CommitStatus),
        statusIgnoredB ⟨[], []⟩ s = false ∧ statusFailureB s = true) ∧
    _get_commit_success ⟨[], []⟩
      ⟨[⟨"ci/a", "pending"⟩, ⟨"ci/b", "failure"⟩], []⟩ = none := by
  decide

/-- C3 (amended): for every input containing at least one non-ignored failure
entry, **no non-ignored pending status, and no non-ignored incomplete check
suite outside the legacy Travis exception**, the overall verdict is Failure
(`some false`), regardless of the states of all other entries. -/
theorem C3_failure_dominates (cfg : CIConfig) (ci : CommitCI)
    (hs : ∀ s ∈ ci.statuses, statusIgnoredB cfg s = false → statusPendingB s = false)
    (hc : ∀ cs ∈ ci.check_suites, suiteIgnoredB cfg cs = false →
      suiteIncompleteB cs = true → (isTravisApp cs && oldTravisB cfg ci.statuses) = true)
    (hf : (∃ s ∈ ci.statuses, statusIgnoredB cfg s = false ∧ statusFailureB s = true) ∨
      (∃ cs ∈ ci.check_suites, suiteIgnoredB cfg cs = false ∧ suiteFailureB cs = true)) :
    _get_commit_success cfg ci = some false := by
  by_cases hfs : ∃ s ∈ ci.statuses, statusIgnoredB cfg s = false ∧ statusFailureB s = true
  · unfold _get_commit_success
    rw [statusLoop_failure cfg ci.statuses none false hs hfs]
  · rcases hf with hf | hf
    · exact absurd hf hfs
    · have hall : ∀ s ∈ ci.statuses, statusIgnoredB cfg s = false →
          statusSuccessB s = true := by
        intro s hsm hsig
        have h2 := hs s hsm hsig
        have h1 : statusFailureB s = false := by
          by_contra h
          exact hfs ⟨s, hsm, hsig, by simpa using h⟩
        rw [statusFailureB, h2] at h1
        simpa using h1
      unfold _get_commit_success
      rw [statusLoop_complete cfg ci.statuses none false hall]
      exact suiteLoop_failure cfg _ ci.check_suites _ hc hf

/-- C3, witness for the amended claim: a successful status and a failed check
suite yield Failure even though a success was seen. -/
theorem C3_witness :
    _get_commit_success ⟨[], []⟩
      ⟨[⟨"ci/a", "success"⟩], [⟨"Some App", some "failure"⟩]⟩ = some false :=
  C3_failure_dominates ⟨[], []⟩
    ⟨[⟨"ci/a", "success"⟩], [⟨"Some App", some "failure"⟩]⟩
    (by decide) (by decide) (by decide)

/-- C4: whenever no short-circuit occurs — every non-ignored status is a
success and every non-ignored check suite is a success or an
incomplete-but-exempt legacy Travis suite — the verdict is Success exactly
when at least one non-ignored success was seen and Pending otherwise; in
particular completed loops never yield Failure, and with every entry ignored
or absent the verdict is Pending, never Success. -/
theorem C4_no_signal_is_pending (cfg : CIConfig) (ci : CommitCI)
    (hs : ∀ s ∈ ci.statuses, statusIgnoredB cfg s = false → statusSuccessB s = true)
    (hc : ∀ cs ∈ ci.check_suites, suiteIgnoredB cfg cs = false →
      suiteSuccessB cs = true ∨ (suiteIncompleteB cs = true ∧
        (isTravisApp cs && oldTravisB cfg ci.statuses) = true)) :
    _get_commit_success cfg ci =
      (if ci.statuses.any (statusSawSuccessB cfg) ||
          ci.check_suites.any (suiteSawSuccessB cfg)
        then some true else none) := by
  unfold _get_commit_success
  rw [statusLoop_complete cfg ci.statuses none false hs]
  have h := suiteLoop_complete cfg
    (false || ci.statuses.any fun s => statusSawSuccessB cfg s && isTravisContext s)
    ci.check_suites
    (if ci.statuses.any (statusSawSuccessB cfg) then some true else none) hc
  refine Eq.trans h ?_
  cases hA : ci.statuses.any (statusSawSuccessB cfg) with
  | true => simp [hA]
  | false =>
    cases hB : ci.check_suites.any (suiteSawSuccessB cfg) with
    | true => simp [hA, hB]
    | false => simp [hA, hB]

/-- C4, witness: a failing status and a failing check suite that are both in
the configured ignore lists produce a Pending verdict (unknown, not a false
success and not a failure). -/
theorem C4_witness :
    _get_commit_success ⟨["ci/x"], ["AppX"]⟩
      ⟨[⟨"ci/x", "failure"⟩], [⟨"AppX", some "failure"⟩]⟩ = none :=
  C4_no_signal_is_pending ⟨["ci/x"], ["AppX"]⟩
    ⟨[⟨"ci/x", "failure"⟩], [⟨"AppX", some "failure"⟩]⟩ (by decide) (by decide)

/-! ## The Status staleness guard -/

/-- C6: a Status invocation whose event sha differs from the merge-bot
branch's current head sha is discarded silently and produces no side effects:
it returns normally with an empty effect trace (no intent decoding result is
used, no verdict acted on, no comment, no merge, no branch deletion). -/
theorem C6_stale_status_no_effects (cfg : MergeBotConfig) (w : World)
    (org repo : String) (b : BranchName) (sha : String)
    (h : w.clone_head_sha b ≠ sha) :
    merge_bot_status cfg w org repo b sha = (.ok (), []) := by
  unfold merge_bot_status
  simp [h]

/-- C6, witness: in the example world the clone's head differs from the
event's sha and the invocation is a silent no-op. -/
theorem C6_witness :
    merge_bot_status exampleConfig exampleWorld "OCA" "mis-builder"
      (.mergeBot exampleIntent) "cafebabe" = (.ok (), []) :=
  C6_stale_status_no_effects exampleConfig exampleWorld "OCA" "mis-builder"
    (.mergeBot exampleIntent) "cafebabe" (by decide)

/-! ## Evaluation lemmas for the orchestrators -/

/-- The deletion push is attempted exactly once whatever its outcome. -/
theorem _git_delete_branch_trace (w : World) (b : BranchName) :
    (_git_delete_branch w b).2 = [.gitDeletePush b] := by
  unfold _git_delete_branch
  cases w.delete_push_res b with
  | ok => rfl
  | err out =>
    by_cases h : strContains out "unable to delete" = true
    · simp [h]
    · simp [h]

/-- Full evaluation of `merge_bot_start` when the permission check and every
external call succeed: it returns normally after fetching, checking out,
rebasing, force-replacing and pushing the merge-bot branch and posting the
intro comment. -/
theorem merge_bot_start_ok (cfg : MergeBotConfig) (w : World) (org repo : String)
    (pr : Nat) (username : String) (bump : Option String) (dry_run : Bool)
    (im : Option String)
    (henv : startEnvOk w pr (w.pr_base pr) username bump) :
    merge_bot_start cfg w org repo pr username bump dry_run im =
      (.ok (),
        [.gitFetchPr pr (make_merge_bot_branch pr (w.pr_base pr) username bump),
          .gitCheckout (make_merge_bot_branch pr (w.pr_base pr) username bump),
          .gitRebase (w.pr_base pr),
          .gitDeletePush (make_merge_bot_branch pr (w.pr_base pr) username bump),
          .gitPush (make_merge_bot_branch pr (w.pr_base pr) username bump),
          .postComment pr
            (.intro (im.getD (_get_merge_bot_intro_message cfg w))
              (make_merge_bot_branch pr (w.pr_base pr) username bump))]) := by
  obtain ⟨h1, h2, h3, h4, h5, h6, h7⟩ := henv
  rcases hdel : _git_delete_branch w (make_merge_bot_branch pr (w.pr_base pr) username bump)
    with ⟨rd, td⟩
  have hrd : rd = .ok () := by
    rw [hdel] at h5
    exact h5
  have htd : td = [.gitDeletePush (make_merge_bot_branch pr (w.pr_base pr) username bump)] := by
    have h := _git_delete_branch_trace w
      (make_merge_bot_branch pr (w.pr_base pr) username bump)
    rw [hdel] at h
    exact h
  subst hrd htd
  cases im with
  | none => simp [merge_bot_start, startBody, h1, h2, h3, h4, h6, h7, hdel]
  | some m => simp [merge_bot_start, startBody, h1, h2, h3, h4, h6, h7, hdel]

/-! ## The race branch of the finalization (C1) -/

/-- C1: when the target branch is no longer an ancestor of the merge-bot
branch, the finalization performs no merge commit and no push to the target
branch, triggers exactly one restart of Start with the decoded intent's PR,
username and bump policy (and, the PR's base being unchanged, pushes a branch
name encoding the same intent), returns `False` to the caller and raises no
error. -/
theorem C1_race_restarts_same_intent (cfg : MergeBotConfig) (w : World)
    (org repo : String) (i : MergeIntent) (dry_run : Bool)
    (hco : w.checkout_res (.plain i.target_branch) = .ok)
    (hanc : w.is_ancestor i.target_branch (.mergeBot i) = false)
    (hbase : w.pr_base i.pr = i.target_branch)
    (henv : startEnvOk w i.pr i.target_branch i.username i.bumpversion) :
    (_merge_bot_merge_pr cfg w org repo (.mergeBot i) dry_run).1 = .ok false ∧
    (_merge_bot_merge_pr cfg w org repo (.mergeBot i) dry_run).2.filter isRestartEffect
      = [.restartStart org repo i.pr i.username i.bumpversion dry_run] ∧
    (∀ e ∈ (_merge_bot_merge_pr cfg w org repo (.mergeBot i) dry_run).2,
      isMergeCommitEffect e = false ∧ isPushTargetEffect e = false) ∧
    Effect.gitPush (make_merge_bot_branch i.pr i.target_branch i.username i.bumpversion)
      ∈ (_merge_bot_merge_pr cfg w org repo (.mergeBot i) dry_run).2 := by
  have henv' : startEnvOk w i.pr (w.pr_base i.pr) i.username i.bumpversion := by
    rw [hbase]
    exact henv
  have hstart := merge_bot_start_ok cfg w org repo i.pr i.username i.bumpversion
    dry_run (some ("It looks like something changed on `" ++ i.target_branch ++
      "` in the meantime.\nLet me try again (no action is required from you).")) henv'
  have heval : _merge_bot_merge_pr cfg w org repo (.mergeBot i) dry_run =
      (.ok false,
        [.gitCheckout (.plain i.target_branch),
          .restartStart org repo i.pr i.username i.bumpversion dry_run,
          .gitFetchPr i.pr (make_merge_bot_branch i.pr i.target_branch i.username i.bumpversion),
          .gitCheckout (make_merge_bot_branch i.pr i.target_branch i.username i.bumpversion),
          .gitRebase i.target_branch,
          .gitDeletePush (make_merge_bot_branch i.pr i.target_branch i.username i.bumpversion),
          .gitPush (make_merge_bot_branch i.pr i.target_branch i.username i.bumpversion),
          .postComment i.pr
            (.intro ("It looks like something changed on `" ++ i.target_branch ++
                "` in the meantime.\nLet me try again (no action is required from you).")
              (make_merge_bot_branch i.pr i.target_branch i.username i.bumpversion))]) := by
    simp [_merge_bot_merge_pr, parse_merge_bot_branch, mergePrBody, hco, hanc,
      hstart, hbase, Except.map]
  rw [heval]
  refine ⟨rfl, rfl, ?_, by simp⟩
  intro e he
  simp only [List.mem_cons, List.not_mem_nil, or_false] at he
  rcases he with rfl | rfl | rfl | rfl | rfl | rfl | rfl | rfl <;> exact ⟨rfl, rfl⟩

/-- C1, witness: the race world restarts Start for PR 42 and reports "not
merged" without raising. -/
theorem C1_witness :
    (_merge_bot_merge_pr exampleConfig raceWorld "OCA" "mis-builder"
        (.mergeBot exampleIntent) false).1 = .ok false ∧
    (_merge_bot_merge_pr exampleConfig raceWorld "OCA" "mis-builder"
        (.mergeBot exampleIntent) false).2.filter isRestartEffect
      = [.restartStart "OCA" "mis-builder" 42 "alice" (some "patch") false] :=
  have h := C1_race_restarts_same_intent exampleConfig raceWorld "OCA" "mis-builder"
    exampleIntent false rfl rfl rfl ⟨rfl, rfl, rfl, rfl, rfl, rfl, rfl⟩
  ⟨h.1, h.2.1⟩

/-- Full evaluation of the no-race merge sequence when every git command
succeeds: merge commit, push of the target (suppressed under dry-run),
conditional maintenance/bump/build/publish actions, idempotent branch
deletion, success comment, label (suppressed under dry-run) and PR closure,
returning `True`. -/
theorem mergePrBody_ok (cfg : MergeBotConfig) (w : World) (org repo : String)
    (i : MergeIntent) (dry_run : Bool)
    (hanc : w.is_ancestor i.target_branch (.mergeBot i) = true)
    (henv : mergeEnvOk w i) :
    mergePrBody cfg w org repo i dry_run =
      (.ok true,
        [.gitCheckout (.plain i.target_branch),
          .gitFetchPr i.pr (.plain ("tmp-pr-" ++ toString i.pr)),
          .gitCheckout (.plain ("tmp-pr-" ++ toString i.pr)),
          .computeModifiedAddons (.plain ("tmp-pr-" ++ toString i.pr)) i.target_branch,
          .gitCheckout (.mergeBot i)] ++
        (if (w.modified_addon_dirs (.plain ("tmp-pr-" ++ toString i.pr))
              i.target_branch).isEmpty
          then [] else [Effect.mainBranchActions org repo i.target_branch]) ++
        ((w.modified_addon_dirs (.plain ("tmp-pr-" ++ toString i.pr))
            i.target_branch).flatMap fun d =>
          match i.bumpversion with
          | some bv => [Effect.bumpManifestVersion d bv, Effect.buildWheel d]
          | none => []) ++
        [.gitCheckout (.plain i.target_branch),
          .gitMergeNoFF i.pr i.target_branch i.username (.mergeBot i)] ++
        (if dry_run then [] else [Effect.gitPushTarget i.target_branch]) ++
        (if i.bumpversion.isSome &&
            !(w.modified_addon_dirs (.plain ("tmp-pr-" ++ toString i.pr))
              i.target_branch).isEmpty &&
            cfg.simple_index_root.isSome
          then (w.modified_addon_dirs (.plain ("tmp-pr-" ++ toString i.pr))
              i.target_branch).map
            fun d => Effect.publishWheel d dry_run
          else []) ++
        [.gitDeletePush (.mergeBot i),
          .postComment i.pr (.merged w.head_sha org i.target_branch)] ++
        (if dry_run then [] else [Effect.addLabel i.pr LABEL_MERGED]) ++
        [.closePullRequest i.pr]) := by
  obtain ⟨h1, h2, h3, h4, h5, h6, h7⟩ := henv
  rcases hdel : _git_delete_branch w (.mergeBot i) with ⟨rd, td⟩
  have hrd : rd = .ok () := by
    rw [hdel] at h7
    exact h7
  have htd : td = [.gitDeletePush (.mergeBot i)] := by
    have h := _git_delete_branch_trace w (.mergeBot i)
    rw [hdel] at h
    exact h
  subst hrd htd
  cases dry_run with
  | false => simp [mergePrBody, mergeTail, h1, h2, h3, h4, h5, h6, hanc, hdel]
  | true => simp [mergePrBody, mergeTail, h1, h2, h3, h4, h5, h6, hanc, hdel]

/-! ## Empty modified-addon set (C8) -/

/-- C8: the modified addon set of a finalization is computed by
`git_modified_addon_dirs` exactly once, on the PR's current head fetched into
the temporary ref `tmp-pr-N` against the target branch — never on the
merge-bot branch; when that set is empty, no main-branch maintenance, version
bump, wheel build or wheel publication happens, while the merge commit,
branch deletion, success comment, label and PR closure still occur. -/
theorem C8_empty_addons_skip_downstream (cfg : MergeBotConfig) (w : World)
    (org repo : String) (i : MergeIntent)
    (hanc : w.is_ancestor i.target_branch (.mergeBot i) = true)
    (henv : mergeEnvOk w i)
    (hdirs : w.modified_addon_dirs (.plain ("tmp-pr-" ++ toString i.pr))
      i.target_branch = []) :
    (_merge_bot_merge_pr cfg w org repo (.mergeBot i) false).1 = .ok true ∧
    (_merge_bot_merge_pr cfg w org repo (.mergeBot i) false).2.filter
        isComputeAddonsEffect
      = [.computeModifiedAddons (.plain ("tmp-pr-" ++ toString i.pr))
          i.target_branch] ∧
    Effect.gitFetchPr i.pr (.plain ("tmp-pr-" ++ toString i.pr))
      ∈ (_merge_bot_merge_pr cfg w org repo (.mergeBot i) false).2 ∧
    (_merge_bot_merge_pr cfg w org repo (.mergeBot i) false).2.filter
        isMaintenanceEffect = [] ∧
    Effect.gitMergeNoFF i.pr i.target_branch i.username (.mergeBot i)
      ∈ (_merge_bot_merge_pr cfg w org repo (.mergeBot i) false).2 ∧
    Effect.gitDeletePush (.mergeBot i)
      ∈ (_merge_bot_merge_pr cfg w org repo (.mergeBot i) false).2 ∧
    Effect.postComment i.pr (.merged w.head_sha org i.target_branch)
      ∈ (_merge_bot_merge_pr cfg w org repo (.mergeBot i) false).2 ∧
    Effect.addLabel i.pr LABEL_MERGED
      ∈ (_merge_bot_merge_pr cfg w org repo (.mergeBot i) false).2 ∧
    Effect.closePullRequest i.pr
      ∈ (_merge_bot_merge_pr cfg w org repo (.mergeBot i) false).2 := by
  have h0 := mergePrBody_ok cfg w org repo i false hanc henv
  rw [hdirs] at h0
  have heval : _merge_bot_merge_pr cfg w org repo (.mergeBot i) false =
      (.ok true,
        [.gitCheckout (.plain i.target_branch),
          .gitFetchPr i.pr (.plain ("tmp-pr-" ++ toString i.pr)),
          .gitCheckout (.plain ("tmp-pr-" ++ toString i.pr)),
          .computeModifiedAddons (.plain ("tmp-pr-" ++ toString i.pr)) i.target_branch,
          .gitCheckout (.mergeBot i),
          .gitCheckout (.plain i.target_branch),
          .gitMergeNoFF i.pr i.target_branch i.username (.mergeBot i),
          .gitPushTarget i.target_branch,
          .gitDeletePush (.mergeBot i),
          .postComment i.pr (.merged w.head_sha org i.target_branch),
          .addLabel i.pr LABEL_MERGED,
          .closePullRequest i.pr]) := by
    have hp : _merge_bot_merge_pr cfg w org repo (.mergeBot i) false
        = mergePrBody cfg w org repo i false := rfl
    rw [hp, h0]
    simp
  refine ⟨by rw [heval], by rw [heval]; rfl, by rw [heval]; simp,
    by rw [heval]; rfl, by rw [heval]; simp, by rw [heval]; simp,
    by rw [heval]; simp, by rw [heval]; simp, by rw [heval]; simp⟩

/-- Every effect of a successful no-race merge sequence is one of: the fixed
checkouts/fetch/addon computation, the conditional maintenance action, a
version bump or wheel build for a modified addon under a bump policy, the
merge commit, the target push (real runs only), a wheel publication carrying
the dry-run flag, the branch deletion, the success comment, the label (real
runs only) or the PR closure. -/
theorem merge_trace_cases (cfg : MergeBotConfig) (w : World) (org repo : String)
    (i : MergeIntent) (dry_run : Bool)
    (hanc : w.is_ancestor i.target_branch (.mergeBot i) = true)
    (henv : mergeEnvOk w i) (e : Effect)
    (he : e ∈ (mergePrBody cfg w org repo i dry_run).2) :
    e = .gitCheckout (.plain i.target_branch) ∨
    e = .gitFetchPr i.pr (.plain ("tmp-pr-" ++ toString i.pr)) ∨
    e = .gitCheckout (.plain ("tmp-pr-" ++ toString i.pr)) ∨
    e = .computeModifiedAddons (.plain ("tmp-pr-" ++ toString i.pr)) i.target_branch ∨
    e = .gitCheckout (.mergeBot i) ∨
    e = .mainBranchActions org repo i.target_branch ∨
    (∃ d bv, i.bumpversion = some bv ∧
      (e = .bumpManifestVersion d bv ∨ e = .buildWheel d)) ∨
    e = .gitMergeNoFF i.pr i.target_branch i.username (.mergeBot i) ∨
    (dry_run = false ∧ e = .gitPushTarget i.target_branch) ∨
    (∃ d, e = .publishWheel d dry_run) ∨
    e = .gitDeletePush (.mergeBot i) ∨
    e = .postComment i.pr (.merged w.head_sha org i.target_branch) ∨
    (dry_run = false ∧ e = .addLabel i.pr LABEL_MERGED) ∨
    e = .closePullRequest i.pr := by
  rw [mergePrBody_ok cfg w org repo i dry_run hanc henv] at he
  simp only [List.mem_append, List.mem_flatMap] at he
  rcases he with ((((((((h | h) | h) | h) | h) | h) | h) | h) | h)
  · simp only [List.mem_cons, List.not_mem_nil, or_false] at h
    rcases h with rfl | rfl | rfl | rfl | rfl <;> tauto
  · split at h
    · simp at h
    · simp only [List.mem_cons, List.not_mem_nil, or_false] at h
      subst h
      tauto
  · obtain ⟨d, hd, h⟩ := h
    rcases hbv : i.bumpversion with _ | bv
    · rw [hbv] at h
      simp at h
    · rw [hbv] at h
      simp only [List.mem_cons, List.not_mem_nil, or_false] at h
      rcases h with rfl | rfl
      · exact Or.inr (Or.inr (Or.inr (Or.inr (Or.inr (Or.inr
          (Or.inl ⟨d, bv, rfl, Or.inl rfl⟩))))))
      · exact Or.inr (Or.inr (Or.inr (Or.inr (Or.inr (Or.inr
          (Or.inl ⟨d, bv, rfl, Or.inr rfl⟩))))))
  · simp only [List.mem_cons, List.not_mem_nil, or_false] at h
    rcases h with rfl | rfl <;> tauto
  · split at h
    · simp at h
    · simp only [List.mem_cons, List.not_mem_nil, or_false] at h
      subst h
      rename_i hc
      simp only [Bool.not_eq_true] at hc
      tauto
  · split at h
    · rw [List.mem_map] at h
      obtain ⟨d, _, h⟩ := h
      exact Or.inr (Or.inr (Or.inr (Or.inr (Or.inr (Or.inr (Or.inr (Or.inr
        (Or.inr (Or.inl ⟨d, h.symm⟩)))))))))
    · simp at h
  · simp only [List.mem_cons, List.not_mem_nil, or_false] at h
    rcases h with rfl | rfl <;> tauto
  · split at h
    · simp at h
    · simp only [List.mem_cons, List.not_mem_nil, or_false] at h
      subst h
      rename_i hc
      simp only [Bool.not_eq_true] at hc
      tauto
  · simp only [List.mem_cons, List.not_mem_nil, or_false] at h
    subst h
    tauto

/-! ## Dry-run and the Status-to-Finalize call (C9, C10) -/

/-- C9: the dry-run mode is not part of the state encoded in the merge-bot
branch name (`MergeIntent` carries pr, target branch, username and bump
policy only), and Status invokes the finalization without passing `dry_run`,
so a Success verdict always finalizes with `dry_run = False`: the target
branch push, the `merged` label and the merge commit happen for real. -/
theorem C9_status_finalizes_for_real (cfg : MergeBotConfig) (w : World)
    (org repo : String) (i : MergeIntent) (sha : String)
    (hsha : w.clone_head_sha (.mergeBot i) = sha)
    (hver : _get_commit_success cfg.ci (w.commit_ci sha) = some true)
    (hanc : w.is_ancestor i.target_branch (.mergeBot i) = true)
    (henv : mergeEnvOk w i) :
    (merge_bot_status cfg w org repo (.mergeBot i) sha).1 = .ok () ∧
    Effect.gitPushTarget i.target_branch
      ∈ (merge_bot_status cfg w org repo (.mergeBot i) sha).2 ∧
    Effect.addLabel i.pr LABEL_MERGED
      ∈ (merge_bot_status cfg w org repo (.mergeBot i) sha).2 ∧
    Effect.gitMergeNoFF i.pr i.target_branch i.username (.mergeBot i)
      ∈ (merge_bot_status cfg w org repo (.mergeBot i) sha).2 := by
  have h0 := mergePrBody_ok cfg w org repo i false hanc henv
  rcases h0p : mergePrBody cfg w org repo i false with ⟨r0, tr0⟩
  rw [h0p, Prod.mk.injEq] at h0
  obtain ⟨hr0, htr0⟩ := h0
  subst hr0
  have heval : merge_bot_status cfg w org repo (.mergeBot i) sha = (.ok (), tr0) := by
    unfold merge_bot_status
    rw [hsha]
    have hmp : _merge_bot_merge_pr cfg w org repo (.mergeBot i) false
        = (Except.ok true, tr0) := h0p
    simp [parse_merge_bot_branch, hver, hmp]
  refine ⟨by rw [heval], ?_, ?_, ?_⟩ <;>
    rw [heval] <;>
    simp only [htr0] <;>
    simp

/-- C9, witness: in the success world, the Status invocation for the example
intent pushes the target branch for real. -/
theorem C9_witness :
    (merge_bot_status exampleConfig successWorld "OCA" "mis-builder"
        (.mergeBot exampleIntent) "cafebabe").1 = .ok () ∧
    Effect.gitPushTarget "15.0"
      ∈ (merge_bot_status exampleConfig successWorld "OCA" "mis-builder"
          (.mergeBot exampleIntent) "cafebabe").2 :=
  have h := C9_status_finalizes_for_real exampleConfig successWorld "OCA"
    "mis-builder" exampleIntent "cafebabe" rfl (by decide) rfl
    ⟨rfl, rfl, rfl, rfl, rfl, rfl, rfl⟩
  ⟨h.1, h.2.1⟩

/-- C10: under dry-run, the finalization suppresses exactly the target-branch
push, the `merged` label addition, and real wheel publication (the dry-run
flag is forwarded to the publisher); the merge commit, the remote bot-branch
deletion, the success comment and the PR closure still occur for real. -/
theorem C10_dry_run_frame (cfg : MergeBotConfig) (w : World) (org repo : String)
    (i : MergeIntent)
    (hanc : w.is_ancestor i.target_branch (.mergeBot i) = true)
    (henv : mergeEnvOk w i) :
    (_merge_bot_merge_pr cfg w org repo (.mergeBot i) true).1 = .ok true ∧
    Effect.gitMergeNoFF i.pr i.target_branch i.username (.mergeBot i)
      ∈ (_merge_bot_merge_pr cfg w org repo (.mergeBot i) true).2 ∧
    Effect.gitDeletePush (.mergeBot i)
      ∈ (_merge_bot_merge_pr cfg w org repo (.mergeBot i) true).2 ∧
    Effect.postComment i.pr (.merged w.head_sha org i.target_branch)
      ∈ (_merge_bot_merge_pr cfg w org repo (.mergeBot i) true).2 ∧
    Effect.closePullRequest i.pr
      ∈ (_merge_bot_merge_pr cfg w org repo (.mergeBot i) true).2 ∧
    (_merge_bot_merge_pr cfg w org repo (.mergeBot i) true).2.filter
      isPushTargetEffect = [] ∧
    (_merge_bot_merge_pr cfg w org repo (.mergeBot i) true).2.filter
      isAddLabelEffect = [] ∧
    (_merge_bot_merge_pr cfg w org repo (.mergeBot i) true).2.filter
      isRealPublishEffect = [] := by
  have h0 := mergePrBody_ok cfg w org repo i true hanc henv
  have hp : _merge_bot_merge_pr cfg w org repo (.mergeBot i) true
      = mergePrBody cfg w org repo i true := rfl
  refine ⟨by rw [hp, h0], by rw [hp, h0]; simp, by rw [hp, h0]; simp,
    by rw [hp, h0]; simp, by rw [hp, h0]; simp, ?_, ?_, ?_⟩ <;>
  · rw [List.filter_eq_nil_iff]
    intro e he
    rw [hp] at he
    have hc := merge_trace_cases cfg w org repo i true hanc henv e he
    rcases hc with rfl | rfl | rfl | rfl | rfl | rfl |
        ⟨d, bv, hbv, rfl | rfl⟩ | rfl | ⟨hdr, rfl⟩ | ⟨d, rfl⟩ | rfl | rfl |
        ⟨hdr, rfl⟩ | rfl <;>
      first
        | exact absurd hdr (by decide)
        | exact fun h => nomatch h

/-- C8, witness: in the benign example world no addon is modified, the
maintenance pipeline is skipped, and the merge still completes. -/
theorem C8_witness :
    (_merge_bot_merge_pr exampleConfig exampleWorld "OCA" "mis-builder"
        (.mergeBot exampleIntent) false).1 = .ok true ∧
    (_merge_bot_merge_pr exampleConfig exampleWorld "OCA" "mis-builder"
        (.mergeBot exampleIntent) false).2.filter isMaintenanceEffect = [] :=
  have h := C8_empty_addons_skip_downstream exampleConfig exampleWorld "OCA"
    "mis-builder" exampleIntent rfl ⟨rfl, rfl, rfl, rfl, rfl, rfl, rfl⟩ rfl
  ⟨h.1, h.2.2.2.1⟩

/-- C10, witness: a dry-run finalization in the benign example world performs
no push of the target branch yet still returns merged. -/
theorem C10_witness :
    (_merge_bot_merge_pr exampleConfig exampleWorld "OCA" "mis-builder"
        (.mergeBot exampleIntent) true).1 = .ok true ∧
    (_merge_bot_merge_pr exampleConfig exampleWorld "OCA" "mis-builder"
        (.mergeBot exampleIntent) true).2.filter isPushTargetEffect = [] :=
  have h := C10_dry_run_frame exampleConfig exampleWorld "OCA" "mis-builder"
    exampleIntent rfl ⟨rfl, rfl, rfl, rfl, rfl, rfl, rfl⟩
  ⟨h.1, h.2.2.2.2.2.1⟩

/-! ## Idempotent deletion (C5) -/

/-- C5, counterexample: on the failure-verdict path of Status the deletion of
an already-absent remote branch raises — the branch-does-not-exist failure of
the raw deletion push is propagated, not swallowed, contradicting idempotency
on that path. -/
theorem C5_counterexample :
    strContains "error: unable to delete 'branch': remote ref does not exist"
      "unable to delete" = true ∧
    (merge_bot_status exampleConfig delFailWorld "OCA" "mis-builder"
        (.mergeBot exampleIntent) "cafebabe").1
      = .error (.calledProcess (deleteCmd (.mergeBot exampleIntent))
          "error: unable to delete 'branch': remote ref does not exist") :=
  ⟨by decide, rfl⟩

/-- C5 (amended): deletion of the remote merge-bot branch is idempotent on
the success path of Finalize: `_git_delete_branch` swallows a deletion
failure whose output reports `unable to delete` (branch absent) and re-raises
every other failure, and the finalization succeeds even when the branch was
already gone; on the failure-verdict path of Status, however, the deletion is
a raw push whose failure — branch absent included — propagates. -/
theorem C5_deletion_idempotency_split (cfg : MergeBotConfig) (w : World)
    (org repo : String) (i : MergeIntent) (sha out : String) :
    (w.delete_push_res (.mergeBot i) = .err out →
      strContains out "unable to delete" = true →
      _git_delete_branch w (.mergeBot i)
        = (.ok (), [.gitDeletePush (.mergeBot i)])) ∧
    (w.delete_push_res (.mergeBot i) = .err out →
      strContains out "unable to delete" = false →
      _git_delete_branch w (.mergeBot i)
        = (.error (.calledProcess (deleteCmd (.mergeBot i)) out),
            [.gitDeletePush (.mergeBot i)])) ∧
    (w.is_ancestor i.target_branch (.mergeBot i) = true → mergeEnvOk w i →
      (_merge_bot_merge_pr cfg w org repo (.mergeBot i) false).1 = .ok true) ∧
    (w.clone_head_sha (.mergeBot i) = sha →
      _get_commit_success cfg.ci (w.commit_ci sha) = some false →
      w.delete_push_res (.mergeBot i) = .err out →
      (merge_bot_status cfg w org repo (.mergeBot i) sha).1
        = .error (.calledProcess (deleteCmd (.mergeBot i)) out)) := by
  refine ⟨?_, ?_, ?_, ?_⟩
  · intro hd hsub
    simp [_git_delete_branch, hd, hsub]
  · intro hd hsub
    simp [_git_delete_branch, hd, hsub]
  · intro hanc henv
    have h0 := mergePrBody_ok cfg w org repo i false hanc henv
    have hp : _merge_bot_merge_pr cfg w org repo (.mergeBot i) false
        = mergePrBody cfg w org repo i false := rfl
    rw [hp, h0]
  · intro hsha hver hd
    unfold merge_bot_status
    rw [hsha]
    simp [parse_merge_bot_branch, hver, hd]

/-- C5, witness: the swallowed deletion at the `_git_delete_branch` level and
the propagated deletion on the Status failure path, both on the same absent
branch. -/
theorem C5_witness :
    _git_delete_branch delFailWorld (.mergeBot exampleIntent)
      = (.ok (), [.gitDeletePush (.mergeBot exampleIntent)]) ∧
    (merge_bot_status exampleConfig delFailWorld "OCA" "mis-builder"
        (.mergeBot exampleIntent) "cafebabe").1
      = .error (.calledProcess (deleteCmd (.mergeBot exampleIntent))
          "error: unable to delete 'branch': remote ref does not exist") :=
  have h := C5_deletion_idempotency_split exampleConfig delFailWorld "OCA"
    "mis-builder" exampleIntent "cafebabe"
    "error: unable to delete 'branch': remote ref does not exist"
  ⟨h.1 rfl (by decide), h.2.2.2 rfl (by decide) rfl⟩

/-! ## Start failure semantics (C7) -/

/-- When the permission check passes, `merge_bot_start` is the work block
wrapped by the comment-then-re-raise handlers. -/
theorem merge_bot_start_eq (cfg : MergeBotConfig) (w : World) (org repo : String)
    (pr : Nat) (username : String) (bump : Option String) (dry_run : Bool)
    (im : Option String) (hcp : w.can_push username = true) :
    merge_bot_start cfg w org repo pr username bump dry_run im =
      match startBody cfg w pr username bump im (w.pr_base pr) with
      | (.ok _, tr) => (.ok (), tr)
      | (.error (.calledProcess cmd out), tr) =>
        (.error (.calledProcess cmd out),
          tr ++ [.postComment pr (.startFailedCommand username cmd out)])
      | (.error (.other d), tr) =>
        (.error (.other d), tr ++ [.postComment pr (.startFailedOther username d)]) := by
  simp [merge_bot_start, hcp]

/-- The work block of Start fails exactly when one of its external calls
fails. -/
theorem startBody_fails_iff (cfg : MergeBotConfig) (w : World) (pr : Nat)
    (username : String) (bump : Option String) (im : Option String) :
    (startBody cfg w pr username bump im (w.pr_base pr)).1 ≠ .ok ()
      ↔ startFailureOccurs w pr username bump := by
  rcases hd : _git_delete_branch w (make_merge_bot_branch pr (w.pr_base pr) username bump)
    with ⟨rd, td⟩
  rcases hf : w.fetch_pr_res pr (make_merge_bot_branch pr (w.pr_base pr) username bump)
    with _ | out1
  · rcases hc : w.checkout_res (make_merge_bot_branch pr (w.pr_base pr) username bump)
      with _ | out2
    · rcases hr : w.rebase_res (w.pr_base pr) with _ | out3
      · cases rd with
        | error e =>
          simp [startBody, startFailureOccurs, hf, hc, hr, hd]
        | ok u =>
          cases u
          rcases hp : w.push_res (make_merge_bot_branch pr (w.pr_base pr) username bump)
            with _ | out4
          · rcases hic : w.intro_comment_exc with _ | d
            · simp [startBody, startFailureOccurs, hf, hc, hr, hd, hp, hic]
            · simp [startBody, startFailureOccurs, hf, hc, hr, hd, hp, hic]
          · simp [startBody, startFailureOccurs, hf, hc, hr, hd, hp]
      · simp [startBody, startFailureOccurs, hf, hc, hr]
    · simp [startBody, startFailureOccurs, hf, hc]
  · simp [startBody, startFailureOccurs, hf]

/-- C7: Start raises exactly when the permission check passed and a command
failure or unexpected exception occurred in the work block; a command failure
is reported to the PR as a comment carrying the failed command and its
captured output, any other failure as a comment carrying its description,
before re-raising; a failed permission check posts a comment addressed to the
user and returns normally with no git operation — the only failure branch not
re-raised. -/
theorem C7_start_failure_semantics (cfg : MergeBotConfig) (w : World)
    (org repo : String) (pr : Nat) (username : String) (bump : Option String)
    (dry_run : Bool) (im : Option String) :
    (w.can_push username = false →
      merge_bot_start cfg w org repo pr username bump dry_run im
        = (.ok (), [.postComment pr (.noPermission username)])) ∧
    ((∃ e, (merge_bot_start cfg w org repo pr username bump dry_run im).1
        = .error e)
      ↔ (w.can_push username = true ∧ startFailureOccurs w pr username bump)) ∧
    (∀ cmd out,
      (merge_bot_start cfg w org repo pr username bump dry_run im).1
          = .error (.calledProcess cmd out) →
      Effect.postComment pr (.startFailedCommand username cmd out)
        ∈ (merge_bot_start cfg w org repo pr username bump dry_run im).2) ∧
    (∀ d,
      (merge_bot_start cfg w org repo pr username bump dry_run im).1
          = .error (.other d) →
      Effect.postComment pr (.startFailedOther username d)
        ∈ (merge_bot_start cfg w org repo pr username bump dry_run im).2) := by
  refine ⟨?_, ?_, ?_, ?_⟩
  · intro h
    simp [merge_bot_start, h]
  · constructor
    · rintro ⟨e, he⟩
      cases hcp : w.can_push username with
      | false =>
        have hR : merge_bot_start cfg w org repo pr username bump dry_run im
            = (.ok (), [.postComment pr (.noPermission username)]) := by
          simp [merge_bot_start, hcp]
        rw [hR] at he
        exact nomatch he
      | true =>
        refine ⟨rfl, ?_⟩
        rw [← startBody_fails_iff cfg w pr username bump im]
        rcases hb : startBody cfg w pr username bump im (w.pr_base pr) with ⟨rb, trb⟩
        rw [merge_bot_start_eq cfg w org repo pr username bump dry_run im hcp, hb] at he
        cases rb with
        | ok u => exact nomatch he
        | error pe => simp
    · rintro ⟨hcp, hfo⟩
      rw [← startBody_fails_iff cfg w pr username bump im] at hfo
      rcases hb : startBody cfg w pr username bump im (w.pr_base pr) with ⟨rb, trb⟩
      rw [hb] at hfo
      cases rb with
      | ok u =>
        cases u
        exact absurd rfl hfo
      | error pe =>
        cases pe with
        | calledProcess c o =>
          refine ⟨.calledProcess c o, ?_⟩
          rw [merge_bot_start_eq cfg w org repo pr username bump dry_run im hcp, hb]
        | other d =>
          refine ⟨.other d, ?_⟩
          rw [merge_bot_start_eq cfg w org repo pr username bump dry_run im hcp, hb]
  · intro cmd out he
    cases hcp : w.can_push username with
    | false =>
      have hR : merge_bot_start cfg w org repo pr username bump dry_run im
          = (.ok (), [.postComment pr (.noPermission username)]) := by
        simp [merge_bot_start, hcp]
      rw [hR] at he
      exact nomatch he
    | true =>
      rcases hb : startBody cfg w pr username bump im (w.pr_base pr) with ⟨rb, trb⟩
      rw [merge_bot_start_eq cfg w org repo pr username bump dry_run im hcp, hb] at he ⊢
      cases rb with
      | ok u => exact nomatch he
      | error pe =>
        cases pe with
        | calledProcess c o =>
          have h1 : PyErr.calledProcess c o = .calledProcess cmd out := by
            injection he
          injection h1 with h2 h3
          subst h2
          subst h3
          simp
        | other d =>
          have h1 : PyErr.other d = .calledProcess cmd out := by
            injection he
          exact nomatch h1
  · intro d he
    cases hcp : w.can_push username with
    | false =>
      have hR : merge_bot_start cfg w org repo pr username bump dry_run im
          = (.ok (), [.postComment pr (.noPermission username)]) := by
        simp [merge_bot_start, hcp]
      rw [hR] at he
      exact nomatch he
    | true =>
      rcases hb : startBody cfg w pr username bump im (w.pr_base pr) with ⟨rb, trb⟩
      rw [merge_bot_start_eq cfg w org repo pr username bump dry_run im hcp, hb] at he ⊢
      cases rb with
      | ok u => exact nomatch he
      | error pe =>
        cases pe with
        | calledProcess c o =>
          have h1 : PyErr.calledProcess c o = .other d := by
            injection he
          exact nomatch h1
        | other d2 =>
          have h1 : PyErr.other d2 = .other d := by
            injection he
          injection h1 with h2
          subst h2
          simp

/-- C7, witness: a denied permission check comments and returns normally,
while a failed fetch is reported to the PR with the failed command and its
output. -/
theorem C7_witness :
    merge_bot_start exampleConfig noPermWorld "OCA" "mis-builder" 42 "mallory"
        (some "patch") false none
      = (.ok (), [.postComment 42 (.noPermission "mallory")]) ∧
    Effect.postComment 42
        (.startFailedCommand "alice"
          (fetchPrCmd 42 (make_merge_bot_branch 42 "15.0" "alice" (some "patch")))
          "fatal: could not find remote ref")
      ∈ (merge_bot_start exampleConfig fetchFailWorld "OCA" "mis-builder" 42
          "alice" (some "patch") false none).2 :=
  have h1 := C7_start_failure_semantics exampleConfig noPermWorld "OCA"
    "mis-builder" 42 "mallory" (some "patch") false none
  have h2 := C7_start_failure_semantics exampleConfig fetchFailWorld "OCA"
    "mis-builder" 42 "alice" (some "patch") false none
  ⟨h1.1 rfl,
    h2.2.2.1 (fetchPrCmd 42 (make_merge_bot_branch 42 "15.0" "alice" (some "patch")))
      "fatal: could not find remote ref" (by rfl)⟩
